import Mathlib

/-!
Verification of the setlog tus-example repository against its specification.

The repository (src/main.go) wires the tusd resumable-upload handler:
a JWT header check, a pre-upload-create callback that records a filename
in the upload metadata, and a completion-notification goroutine.
The protocol engine itself (create, append, head, set-deferred-length and
terminate over a metadata store and a storage backend) is not part of the
repository source; the specification defines it, and it is modelled here
from the words of the specification.
-/

namespace Tus

/-- Model of Go strings.TrimLeft as used in src/main.go line 55: removes
every leading character that belongs to the cutset, treating the cutset
string as a set of characters and not as a literal prefix. -/
def goTrimLeft (s cutset : String) : String :=
  ⟨s.data.dropWhile (fun c => cutset.data.contains c)⟩

/-- checkJWT from src/main.go lines 54 to 60: trims the characters of the
cutset consisting of B, e, a, r and space from the left of the
Authorization header and returns nil (modelled as none) exactly when the
remainder is the literal TrueJWT; otherwise it returns an access-denied
error. -/
def checkJWT (authorizationHeader : String) : Option String :=
  let jwt := goTrimLeft authorizationHeader ("Bearer ")
  if jwt ≠ ("TrueJWT") then some ("Access denied") else none

/-- Outcome of one request through the files handler of src/main.go lines
40 to 46: whether a 401 status was written and whether the wrapped tus
protocol handler was invoked afterwards. -/
structure HandlerOutcome where
  wroteUnauthorized : Bool
  tusHandlerInvoked : Bool
deriving DecidableEq

/-- The files handler registered in src/main.go lines 40 to 46: it
evaluates checkJWT on the Authorization header, writes 401 Unauthorized
when the check fails, and then calls the wrapped tus handler
unconditionally, because the code contains no return statement after
WriteHeader. -/
def filesHandler (authorizationHeader : String) : HandlerOutcome :=
  let err := checkJWT authorizationHeader
  { wroteUnauthorized := err.isSome, tusHandlerInvoked := true }

/-- Upload descriptor visible to the pre-create hook (the tusd FileInfo
as used by src/main.go): its id and its key-value metadata. -/
structure FileInfo where
  id : String
  metaData : List (String × String)
deriving DecidableEq

/-- Hook event passed to PreUploadCreateCallback in src/main.go: the
upload descriptor and the HTTP request headers. -/
structure HookEvent where
  upload : FileInfo
  httpHeaders : List (String × String)
deriving DecidableEq

/-- First value stored for a header key, and the empty string when the
key is absent: the semantics of Go http.Header.Get used in
src/main.go line 23. -/
def headerGet : List (String × String) → String → String
  | [], _ => ""
  | (k, v) :: rest, key => if k = key then v else headerGet rest key

/-- Value stored for a key in a string map, none when the key is
absent. -/
def mapGet : List (String × String) → String → Option String
  | [], _ => none
  | (k, v) :: rest, key => if k = key then some v else mapGet rest key

/-- Go map assignment, modelled as shadowing insertion: the new binding
hides any previous binding for the same key. -/
def mapSet (m : List (String × String)) (key v : String) : List (String × String) :=
  (key, v) :: m

/-- PreUploadCreateCallback from src/main.go lines 22 to 25: it writes
the filename request header into the metadata map of the upload of the
hook event (in the Go code by mutating the map reachable from the event
in place; modelled here by returning the updated event next to the
returned error) and returns nil. -/
def preUploadCreateCallback (hook : HookEvent) : HookEvent × Option String :=
  ({ hook with upload := { hook.upload with
      metaData := mapSet hook.upload.metaData ("filename")
        (headerGet hook.httpHeaders ("filename")) } },
   none)

theorem headerGet_eq_empty_of_mapGet_none (hs : List (String × String)) (key : String)
    (h : mapGet hs key = none) : headerGet hs key = "" := by
  induction hs with
  | nil => rfl
  | cons a rest ih =>
    obtain ⟨k, v⟩ := a
    by_cases hk : k = key
    · simp [mapGet, hk] at h
    · simp [mapGet, hk] at h
      simp [headerGet, hk]
      exact ih h

/-- C1: the claim says a denied request is rejected and the protocol
handler performs no state transition, but at a denied request the code of
src/main.go lines 40 to 46 writes 401 and then still invokes the wrapped
tus protocol handler, because there is no return statement after
WriteHeader: the upload operation is executed despite the denial. -/
theorem C1_denied_request_still_reaches_handler :
    checkJWT ("Bearer FalseJWT") = some ("Access denied") ∧
    (filesHandler ("Bearer FalseJWT")).wroteUnauthorized = true ∧
    (filesHandler ("Bearer FalseJWT")).tusHandlerInvoked = true :=
  ⟨by decide, by decide, by decide⟩

/-- C2: TrimLeft with cutset consisting of the characters of the word
Bearer and a space performs character-set trimming: membership in the
cutset is membership in the set containing B, e, a, r and space, and
there are headers that do not start with the literal prefix but are
nevertheless allowed by checkJWT, for example the bare TrueJWT and the
scrambled rraeB TrueJWT. -/
theorem C2_trimLeft_is_charset_trimming :
    (∀ c : Char, c ∈ ("Bearer ").data ↔
      (c = 'B' ∨ c = 'e' ∨ c = 'a' ∨ c = 'r' ∨ c = ' ')) ∧
    ("Bearer ").data.isPrefixOf ("TrueJWT").data = false ∧
    checkJWT ("TrueJWT") = none ∧
    ("Bearer ").data.isPrefixOf ("rraeB TrueJWT").data = false ∧
    checkJWT ("rraeB TrueJWT") = none := by
  refine ⟨?_, by decide, by decide, by decide, by decide⟩
  intro c
  have hd : ("Bearer ").data = ['B', 'e', 'a', 'r', 'e', 'r', ' '] := rfl
  rw [hd]
  simp only [List.mem_cons, List.not_mem_nil, or_false]
  tauto

/-- C9: checkJWT returns nil exactly when trimming the characters of the
cutset from the left of the header yields the literal TrueJWT; in
particular the empty header (a missing Authorization header) is denied
and the header consisting of the word Bearer, a space and TrueJWT is
allowed. -/
theorem C9_checkJWT_characterisation :
    (∀ h : String, checkJWT h = none ↔ goTrimLeft h ("Bearer ") = ("TrueJWT")) ∧
    checkJWT ("") = some ("Access denied") ∧
    checkJWT ("Bearer TrueJWT") = none := by
  refine ⟨?_, by decide, by decide⟩
  intro h
  by_cases hc : goTrimLeft h ("Bearer ") = ("TrueJWT") <;> simp [checkJWT, hc]

/-- C10: the pre-create callback always returns nil, and it sets the
filename metadata key of the upload to the value of the filename request
header, the empty string when that header is absent, overwriting any
client-supplied filename entry. -/
theorem C10_callback_sets_filename_metadata :
    ∀ hook : HookEvent,
      (preUploadCreateCallback hook).2 = none ∧
      mapGet (preUploadCreateCallback hook).1.upload.metaData ("filename") =
        some (headerGet hook.httpHeaders ("filename")) ∧
      (mapGet hook.httpHeaders ("filename") = none →
        mapGet (preUploadCreateCallback hook).1.upload.metaData ("filename") =
          some ("")) := by
  intro hook
  refine ⟨rfl, by simp [preUploadCreateCallback, mapSet, mapGet], ?_⟩
  intro habsent
  simp [preUploadCreateCallback, mapSet, mapGet,
    headerGet_eq_empty_of_mapGet_none hook.httpHeaders ("filename") habsent]

/-- C6 counterexample: the pre-create callback is not pure: on a concrete
hook event the event after the call differs from the event before,
although the returned error is nil, so the metadata change happens
outside the return value of the Go callback, by mutation of state
reachable from the hook event. -/
theorem C6_callback_mutates_hook_event :
    (preUploadCreateCallback
        ⟨⟨("upload-1"), [(("filename"), ("client.txt"))]⟩,
          [(("filename"), ("server.txt"))]⟩).1 ≠
      ⟨⟨("upload-1"), [(("filename"), ("client.txt"))]⟩,
        [(("filename"), ("server.txt"))]⟩ ∧
    (preUploadCreateCallback
        ⟨⟨("upload-1"), [(("filename"), ("client.txt"))]⟩,
          [(("filename"), ("server.txt"))]⟩).2 = none :=
  ⟨by decide, rfl⟩

/-- C6 amended: the pre-create callback is invoked synchronously inside
the Create transition, always returns nil, and its whole effect is
confined to the metadata of the upload of the hook event: the request
headers and the upload id are unchanged, every metadata key other than
filename is unchanged, and the filename key is overwritten with the value
of the filename request header; the change is communicated by updating
the hook event rather than through the returned error. -/
theorem C6_callback_effect_confined_to_filename :
    ∀ hook : HookEvent,
      (preUploadCreateCallback hook).2 = none ∧
      (preUploadCreateCallback hook).1.httpHeaders = hook.httpHeaders ∧
      (preUploadCreateCallback hook).1.upload.id = hook.upload.id ∧
      mapGet (preUploadCreateCallback hook).1.upload.metaData ("filename") =
        some (headerGet hook.httpHeaders ("filename")) ∧
      (∀ key, key ≠ ("filename") →
        mapGet (preUploadCreateCallback hook).1.upload.metaData key =
          mapGet hook.upload.metaData key) := by
  intro hook
  refine ⟨rfl, rfl, rfl, by simp [preUploadCreateCallback, mapSet, mapGet], ?_⟩
  intro key hkey
  have hne : ("filename") ≠ key := fun h => hkey h.symm
  simp [preUploadCreateCallback, mapSet, mapGet, hne]

/-- C6 witness: at a concrete hook event a metadata key other than
filename is left unchanged by the callback. -/
theorem C6_callback_effect_witness :
    mapGet (preUploadCreateCallback
        ⟨⟨("upload-2"), [(("user"), ("alice"))]⟩,
          [(("filename"), ("a.txt"))]⟩).1.upload.metaData ("user") =
      mapGet ([(("user"), ("alice"))]) ("user") :=
  (C6_callback_effect_confined_to_filename
    ⟨⟨("upload-2"), [(("user"), ("alice"))]⟩,
      [(("filename"), ("a.txt"))]⟩).2.2.2.2 ("user") (by decide)

/-- C10 witness: at a concrete hook event with a client-supplied filename
metadata entry and no filename request header, the callback returns nil
and overwrites the entry with the empty string. -/
theorem C10_callback_witness :
    (preUploadCreateCallback
        ⟨⟨("upload-3"), [(("filename"), ("client.txt"))]⟩, []⟩).2 = none ∧
    mapGet (preUploadCreateCallback
        ⟨⟨("upload-3"), [(("filename"), ("client.txt"))]⟩,
          []⟩).1.upload.metaData ("filename") = some ("") := by
  have h := C10_callback_sets_filename_metadata
    ⟨⟨("upload-3"), [(("filename"), ("client.txt"))]⟩, []⟩
  exact ⟨h.1, h.2.2 (by decide)⟩

/-- Modelled from the spec: the error taxonomy of section 7 of the
specification; the protocol engine itself is not part of the repository
source, the repository only configures an external library. -/
inductive TusError
  | NotFound
  | OffsetMismatch
  | LengthExceeded
  | InvalidLength
  | AlreadySet
  | Unauthorized
  | StorageUnavailable
deriving DecidableEq

/-- Modelled from the spec: the per-upload descriptor of section 3:
declared length (none while deferred), current offset, and creation
metadata. -/
structure Upload where
  declaredLength : Option Nat
  offset : Nat
  metaData : List (String × String)
deriving DecidableEq

/-- Modelled from the spec: one completion notification of section 4.4,
carrying the upload id and its final length. -/
structure CompletionEvent where
  id : Nat
  finalLength : Nat
deriving DecidableEq

/-- Modelled from the spec: the whole protocol state: the id generator
(ids are globally unique, section 3), the upload metadata store and the
storage backend, both keyed by the same ids (section 6 persisted
layout). -/
structure SystemState where
  nextId : Nat
  uploads : List (Nat × Upload)
  storage : List (Nat × List Nat)
deriving DecidableEq

def alLookup {α : Type} : List (Nat × α) → Nat → Option α
  | [], _ => none
  | (k, v) :: rest, key => if key = k then some v else alLookup rest key

def alInsert {α : Type} (l : List (Nat × α)) (key : Nat) (v : α) : List (Nat × α) :=
  (key, v) :: l

def alErase {α : Type} : List (Nat × α) → Nat → List (Nat × α)
  | [], _ => []
  | (k, v) :: rest, key =>
    if key = k then alErase rest key else (k, v) :: alErase rest key

/-- Modelled from the spec: completed is derived: the offset equals the
declared length and the length is not deferred (section 3). -/
def Upload.isComplete (u : Upload) : Bool :=
  decide (u.declaredLength = some u.offset)

def completeIn (l : List (Nat × Upload)) (id : Nat) : Bool :=
  ((alLookup l id).map Upload.isComplete).getD false

def completeAt (s : SystemState) (id : Nat) : Bool :=
  completeIn s.uploads id

/-- Modelled from the spec: the request alphabet of the protocol state
machine of section 4.3; append carries a flag telling whether the storage
backend write succeeds, so that a failing backend write
(StorageUnavailable, section 7) can be exercised. -/
inductive Op
  | create (declaredLength : Option Int) (metaData : List (String × String))
  | append (id : Nat) (expectedOffset : Nat) (payload : List Nat) (storageOk : Bool)
  | head (id : Nat)
  | setDeferredLength (id : Nat) (declaredLength : Int)
  | terminate (id : Nat)
deriving DecidableEq

/-- Modelled from the spec: successful responses of the protocol surface
of section 6. -/
inductive Output
  | created (id : Nat)
  | appended (newOffset : Nat)
  | info (offset : Nat) (declaredLength : Option Nat)
  | done
deriving DecidableEq

inductive OpResult
  | ok (out : Output)
  | err (e : TusError)
deriving DecidableEq

structure StepResult where
  state : SystemState
  result : OpResult
  events : List CompletionEvent
deriving DecidableEq

/-- Modelled from the spec: one transition of the protocol state machine
of section 4.3: create validates the declared length and assigns a fresh
id; append validates id, expected offset and declared length and then
writes the payload and advances the offset transactionally with the
storage write (section 4.2), a failing storage write leaves both the
bytes and the offset untouched (fail-closed, sections 5 and 7); head is
read-only; setDeferredLength is allowed exactly once while the length is
deferred; terminate deletes metadata and storage object and is
failure-free on repeat; a completion event carrying the id and the final
length is emitted exactly when a transition makes the offset reach the
declared length (data flow of section 2, section 4.4). -/
def step (s : SystemState) (op : Op) : StepResult :=
  match op with
  | .create declaredLength metaData =>
    match declaredLength with
    | some l =>
      if l < 0 then ⟨s, .err .InvalidLength, []⟩
      else
        ⟨⟨s.nextId + 1,
          alInsert s.uploads s.nextId ⟨some l.toNat, 0, metaData⟩,
          alInsert s.storage s.nextId []⟩,
         .ok (.created s.nextId),
         if l.toNat = 0 then [⟨s.nextId, 0⟩] else []⟩
    | none =>
      ⟨⟨s.nextId + 1,
        alInsert s.uploads s.nextId ⟨none, 0, metaData⟩,
        alInsert s.storage s.nextId []⟩,
       .ok (.created s.nextId), []⟩
  | .append id expectedOffset payload storageOk =>
    match alLookup s.uploads id with
    | none => ⟨s, .err .NotFound, []⟩
    | some u =>
      if expectedOffset ≠ u.offset then ⟨s, .err .OffsetMismatch, []⟩
      else
        match u.declaredLength with
        | some len =>
          if len < u.offset + payload.length then ⟨s, .err .LengthExceeded, []⟩
          else if storageOk then
            ⟨⟨s.nextId,
              alInsert s.uploads id ⟨some len, u.offset + payload.length, u.metaData⟩,
              alInsert s.storage id ((alLookup s.storage id).getD [] ++ payload)⟩,
             .ok (.appended (u.offset + payload.length)),
             if u.offset < len ∧ u.offset + payload.length = len
               then [⟨id, len⟩] else []⟩
          else ⟨s, .err .StorageUnavailable, []⟩
        | none =>
          if storageOk then
            ⟨⟨s.nextId,
              alInsert s.uploads id ⟨none, u.offset + payload.length, u.metaData⟩,
              alInsert s.storage id ((alLookup s.storage id).getD [] ++ payload)⟩,
             .ok (.appended (u.offset + payload.length)), []⟩
          else ⟨s, .err .StorageUnavailable, []⟩
  | .head id =>
    match alLookup s.uploads id with
    | none => ⟨s, .err .NotFound, []⟩
    | some u => ⟨s, .ok (.info u.offset u.declaredLength), []⟩
  | .setDeferredLength id declaredLength =>
    match alLookup s.uploads id with
    | none => ⟨s, .err .NotFound, []⟩
    | some u =>
      match u.declaredLength with
      | some _ => ⟨s, .err .AlreadySet, []⟩
      | none =>
        if declaredLength < 0 then ⟨s, .err .InvalidLength, []⟩
        else
          ⟨⟨s.nextId,
            alInsert s.uploads id ⟨some declaredLength.toNat, u.offset, u.metaData⟩,
            s.storage⟩,
           .ok .done,
           if u.offset = declaredLength.toNat
             then [⟨id, declaredLength.toNat⟩] else []⟩
  | .terminate id =>
    ⟨⟨s.nextId, alErase s.uploads id, alErase s.storage id⟩, .ok .done, []⟩

/-- Modelled from the spec: the authentication collaborator of section 6
is invoked before any state transition; a denied request is rejected as
Unauthorized and no transition is performed; the checkJWT example of the
repository instantiates the predicate. -/
def authedStep (authorizationHeader : String) (s : SystemState) (op : Op) :
    StepResult :=
  match checkJWT authorizationHeader with
  | some _ => ⟨s, .err .Unauthorized, []⟩
  | none => step s op

def initState : SystemState := ⟨0, [], []⟩

def runTrace : SystemState → List Op → SystemState × List CompletionEvent
  | s, [] => (s, [])
  | s, op :: rest =>
    ((runTrace (step s op).state rest).1,
     (step s op).events ++ (runTrace (step s op).state rest).2)

def statesAlong : SystemState → List Op → List SystemState
  | _, [] => []
  | s, op :: rest => (step s op).state :: statesAlong (step s op).state rest

def countFor (id : Nat) (evs : List CompletionEvent) : Nat :=
  (evs.filter (fun e => e.id == id)).length

/-- Cross-entity invariant of section 3 of the specification: the stored
byte length for an id always equals the metadata offset for that id. -/
def lengthInv (s : SystemState) : Prop :=
  ∀ id u, alLookup s.uploads id = some u →
    ∃ bytes, alLookup s.storage id = some bytes ∧ bytes.length = u.offset

/-- Freshness invariant: ids at or above the generator counter are
unused; it holds in the initial state and is preserved by every step. -/
def freshInv (s : SystemState) : Prop :=
  ∀ id : Nat, s.nextId ≤ id → alLookup s.uploads id = none

theorem alLookup_alInsert {α : Type} (l : List (Nat × α)) (k key : Nat) (v : α) :
    alLookup (alInsert l k v) key = if key = k then some v else alLookup l key :=
  rfl

theorem alLookup_alErase {α : Type} (l : List (Nat × α)) (k key : Nat) :
    alLookup (alErase l k) key = if key = k then none else alLookup l key := by
  induction l with
  | nil => simp [alErase, alLookup]
  | cons a rest ih =>
    obtain ⟨ak, av⟩ := a
    by_cases h1 : k = ak
    · subst h1
      rw [show alErase ((k, av) :: rest) k = alErase rest k from by simp [alErase]]
      rw [ih]
      by_cases h2 : key = k <;> simp [alLookup, h2]
    · rw [show alErase ((ak, av) :: rest) k = (ak, av) :: alErase rest k from by
        simp [alErase, h1]]
      by_cases h2 : key = ak
      · have h3 : ¬ key = k := by rw [h2]; exact fun hh => h1 hh.symm
        simp [alLookup, h2, h3]
        exact fun hh => h1 hh.symm
      · simp [alLookup, h2, ih]

theorem alErase_alErase {α : Type} (l : List (Nat × α)) (k : Nat) :
    alErase (alErase l k) k = alErase l k := by
  induction l with
  | nil => rfl
  | cons a rest ih =>
    obtain ⟨ak, av⟩ := a
    by_cases h1 : k = ak
    · subst h1
      simp [alErase, ih]
    · simp [alErase, h1, ih]

theorem step_err_frame (s : SystemState) (op : Op) (e : TusError)
    (h : (step s op).result = .err e) :
    (step s op).state = s ∧ (step s op).events = [] := by
  cases op with
  | create dl md =>
    cases dl with
    | none => simp [step] at h
    | some l =>
      by_cases hl : l < 0
      · simp [step, hl]
      · simp [step, hl] at h
  | append id eo p ok =>
    cases hu : alLookup s.uploads id with
    | none => simp [step, hu]
    | some u =>
      by_cases he : eo = u.offset
      · cases hd : u.declaredLength with
        | some len =>
          by_cases hx : len < u.offset + p.length
          · simp [step, hu, he, hd, hx]
          · cases ok with
            | true => simp [step, hu, he, hd, hx] at h
            | false => simp [step, hu, he, hd, hx]
        | none =>
          cases ok with
          | true => simp [step, hu, he, hd] at h
          | false => simp [step, hu, he, hd]
      · simp [step, hu, he]
  | head id =>
    cases hu : alLookup s.uploads id with
    | none => simp [step, hu]
    | some u => simp [step, hu] at h
  | setDeferredLength id L =>
    cases hu : alLookup s.uploads id with
    | none => simp [step, hu]
    | some u =>
      cases hd : u.declaredLength with
      | some len => simp [step, hu, hd]
      | none =>
        by_cases hm : L < 0
        · simp [step, hu, hd, hm]
        · simp [step, hu, hd, hm] at h
  | terminate id => simp [step] at h

/-- C5: whenever an operation of the protocol engine returns an error,
the whole state, metadata store and storage backend alike, is the state
before the call and no event is emitted; in particular a storage-write
failure during Append leaves the state, and with it the metadata offset,
untouched. -/
theorem C5_errors_leave_state_untouched :
    (∀ ah s op e, (authedStep ah s op).result = .err e →
      (authedStep ah s op).state = s ∧ (authedStep ah s op).events = []) ∧
    (∀ s id eo p, (step s (Op.append id eo p false)).state = s ∧
      (step s (Op.append id eo p false)).events = []) := by
  constructor
  · intro ah s op e h
    cases hc : checkJWT ah with
    | some msg => simp [authedStep, hc]
    | none =>
      simp only [authedStep, hc] at h ⊢
      exact step_err_frame s op e h
  · intro s id eo p
    cases hu : alLookup s.uploads id with
    | none => simp [step, hu]
    | some u =>
      by_cases he : eo = u.offset
      · cases hd : u.declaredLength with
        | some len =>
          by_cases hx : len < u.offset + p.length <;> simp [step, hu, he, hd, hx]
        | none => simp [step, hu, he, hd]
      · simp [step, hu, he]

/-- C5 witness: a head request for an unknown id under a missing
Authorization header is rejected and leaves the initial state
untouched. -/
theorem C5_witness :
    (authedStep ("") initState (Op.head 0)).state = initState ∧
    (authedStep ("") initState (Op.head 0)).events = [] :=
  C5_errors_leave_state_untouched.1 ("") initState (Op.head 0)
    TusError.Unauthorized (by decide)

/-- C4: an Append whose expected offset differs from the current offset
of the upload is rejected with OffsetMismatch and the whole state, hence
both the metadata offset and the stored byte length, is unchanged. -/
theorem C4_offset_mismatch_rejected (s : SystemState) (id : Nat) (u : Upload)
    (eo : Nat) (p : List Nat) (ok : Bool)
    (hu : alLookup s.uploads id = some u) (hne : eo ≠ u.offset) :
    step s (Op.append id eo p ok) = ⟨s, .err .OffsetMismatch, []⟩ := by
  simp [step, hu, hne]

/-- C4 witness: appending at expected offset 3 to a fresh upload whose
offset is 0 is rejected with OffsetMismatch and changes nothing. -/
theorem C4_offset_mismatch_witness :
    step (step initState (Op.create (some 5) [])).state (Op.append 0 3 [1] true) =
      ⟨(step initState (Op.create (some 5) [])).state, .err .OffsetMismatch, []⟩ :=
  C4_offset_mismatch_rejected (step initState (Op.create (some 5) [])).state 0
    ⟨some 5, 0, []⟩ 3 [1] true (by decide) (by decide)

theorem lengthInv_insert (s : SystemState) (h : lengthInv s) (ni id : Nat)
    (u2 : Upload) (new : List Nat) (hlen : new.length = u2.offset) :
    lengthInv ⟨ni, alInsert s.uploads id u2, alInsert s.storage id new⟩ := by
  intro id2 v hv
  rw [alLookup_alInsert] at hv
  by_cases hid : id2 = id
  · rw [if_pos hid] at hv
    injection hv with hv
    subst hv
    exact ⟨new, by rw [alLookup_alInsert, if_pos hid], hlen⟩
  · rw [if_neg hid] at hv
    obtain ⟨b, hb1, hb2⟩ := h id2 v hv
    exact ⟨b, by rw [alLookup_alInsert, if_neg hid]; exact hb1, hb2⟩

theorem lengthInv_insert_upload (s : SystemState) (h : lengthInv s) (ni id : Nat)
    (u u2 : Upload) (hu : alLookup s.uploads id = some u)
    (hoff : u2.offset = u.offset) :
    lengthInv ⟨ni, alInsert s.uploads id u2, s.storage⟩ := by
  intro id2 v hv
  rw [alLookup_alInsert] at hv
  by_cases hid : id2 = id
  · rw [if_pos hid] at hv
    injection hv with hv
    subst hv
    obtain ⟨b, hb1, hb2⟩ := h id u hu
    exact ⟨b, by rw [hid]; exact hb1, by rw [hoff]; exact hb2⟩
  · rw [if_neg hid] at hv
    exact h id2 v hv

theorem lengthInv_erase (s : SystemState) (h : lengthInv s) (id : Nat) :
    lengthInv ⟨s.nextId, alErase s.uploads id, alErase s.storage id⟩ := by
  intro id2 v hv
  rw [alLookup_alErase] at hv
  by_cases hid : id2 = id
  · rw [if_pos hid] at hv
    exact absurd hv (by simp)
  · rw [if_neg hid] at hv
    obtain ⟨b, hb1, hb2⟩ := h id2 v hv
    exact ⟨b, by rw [alLookup_alErase, if_neg hid]; exact hb1, hb2⟩

theorem lengthInv_step (s : SystemState) (op : Op) (h : lengthInv s) :
    lengthInv (step s op).state := by
  cases op with
  | create dl md =>
    have key : ∀ dlN : Option Nat,
        lengthInv ⟨s.nextId + 1, alInsert s.uploads s.nextId ⟨dlN, 0, md⟩,
          alInsert s.storage s.nextId []⟩ :=
      fun dlN => lengthInv_insert s h (s.nextId + 1) s.nextId ⟨dlN, 0, md⟩ [] rfl
    cases dl with
    | none => simpa [step] using key none
    | some l =>
      by_cases hl : l < 0
      · simpa [step, hl] using h
      · simpa [step, hl] using key (some l.toNat)
  | append id eo p ok =>
    cases hu : alLookup s.uploads id with
    | none => simpa [step, hu] using h
    | some u =>
      by_cases he : eo = u.offset
      · cases hd : u.declaredLength with
        | some len =>
          by_cases hx : len < u.offset + p.length
          · simpa [step, hu, he, hd, hx] using h
          · cases ok with
            | false => simpa [step, hu, he, hd, hx] using h
            | true =>
              obtain ⟨bytes, hb1, hb2⟩ := h id u hu
              have hres := lengthInv_insert s h s.nextId id
                ⟨some len, u.offset + p.length, u.metaData⟩
                ((alLookup s.storage id).getD [] ++ p)
                (by simp [hb1, hb2])
              simpa [step, hu, he, hd, hx] using hres
        | none =>
          cases ok with
          | false => simpa [step, hu, he, hd] using h
          | true =>
            obtain ⟨bytes, hb1, hb2⟩ := h id u hu
            have hres := lengthInv_insert s h s.nextId id
              ⟨none, u.offset + p.length, u.metaData⟩
              ((alLookup s.storage id).getD [] ++ p)
              (by simp [hb1, hb2])
            simpa [step, hu, he, hd] using hres
      · simpa [step, hu, he] using h
  | head id =>
    cases hu : alLookup s.uploads id with
    | none => simpa [step, hu] using h
    | some u => simpa [step, hu] using h
  | setDeferredLength id L =>
    cases hu : alLookup s.uploads id with
    | none => simpa [step, hu] using h
    | some u =>
      cases hd : u.declaredLength with
      | some len => simpa [step, hu, hd] using h
      | none =>
        by_cases hm : L < 0
        · simpa [step, hu, hd, hm] using h
        · have hres := lengthInv_insert_upload s h s.nextId id u
            ⟨some L.toNat, u.offset, u.metaData⟩ hu rfl
          simpa [step, hu, hd, hm] using hres
  | terminate id =>
    simpa [step] using lengthInv_erase s h id

/-- C3: the central cross-entity invariant: the stored byte length for an
id equals the metadata offset for that id; it holds in the initial state,
it is preserved by every operation of the engine, and therefore it holds
in every state reachable by any trace of operations. -/
theorem C3_storage_length_equals_offset :
    lengthInv initState ∧
    (∀ s op, lengthInv s → lengthInv (step s op).state) ∧
    (∀ ops t, t ∈ statesAlong initState ops → lengthInv t) := by
  have hinit : lengthInv initState := by
    intro id u hu
    simp [initState, alLookup] at hu
  have hall : ∀ ops s, lengthInv s → ∀ t, t ∈ statesAlong s ops → lengthInv t := by
    intro ops
    induction ops with
    | nil => intro s hs t ht; simp [statesAlong] at ht
    | cons op rest ih =>
      intro s hs t ht
      simp only [statesAlong, List.mem_cons] at ht
      rcases ht with rfl | ht
      · exact lengthInv_step s op hs
      · exact ih (step s op).state (lengthInv_step s op hs) t ht
  exact ⟨hinit, fun s op => lengthInv_step s op,
    fun ops t ht => hall ops initState hinit t ht⟩

/-- C3 witness: the invariant holds after a concrete create step on the
initial state. -/
theorem C3_invariant_witness :
    lengthInv (step initState (Op.create (some 3) [])).state :=
  C3_storage_length_equals_offset.2.1 initState (Op.create (some 3) [])
    C3_storage_length_equals_offset.1

theorem completeIn_insert (l : List (Nat × Upload)) (k : Nat) (u : Upload)
    (id : Nat) :
    completeIn (alInsert l k u) id = if id = k then u.isComplete else completeIn l id := by
  by_cases h : id = k <;> simp [completeIn, alLookup_alInsert, h]

theorem completeIn_erase (l : List (Nat × Upload)) (k id : Nat) :
    completeIn (alErase l k) id = if id = k then false else completeIn l id := by
  by_cases h : id = k <;> simp [completeIn, alLookup_alErase, h]

theorem completeAt_some (s : SystemState) (id : Nat) (u : Upload)
    (hu : alLookup s.uploads id = some u) : completeAt s id = u.isComplete := by
  simp [completeAt, completeIn, hu]

theorem completeAt_noneUpload (s : SystemState) (id : Nat)
    (hu : alLookup s.uploads id = none) : completeAt s id = false := by
  simp [completeAt, completeIn, hu]

theorem countFor_append (id : Nat) (a b : List CompletionEvent) :
    countFor id (a ++ b) = countFor id a + countFor id b := by
  simp [countFor, List.filter_append]

theorem countFor_single (id j n : Nat) :
    countFor id [⟨j, n⟩] = if j = id then 1 else 0 := by
  by_cases h : j = id
  · have hb : (j == id) = true := by simp [h]
    simp [countFor, List.filter, hb, h]
  · have hb : (j == id) = false := by simp [h]
    simp [countFor, List.filter, hb, h]

theorem nextId_mono (s : SystemState) (op : Op) :
    s.nextId ≤ (step s op).state.nextId := by
  cases op with
  | create dl md =>
    cases dl with
    | none => simp [step]
    | some l =>
      by_cases hl : l < 0
      · simp [step, hl]
      · simp [step, hl]
  | append j eo p ok =>
    cases hu : alLookup s.uploads j with
    | none => simp [step, hu]
    | some u =>
      by_cases he : eo = u.offset
      · cases hd : u.declaredLength with
        | some len =>
          by_cases hx : len < u.offset + p.length
          · simp [step, hu, he, hd, hx]
          · cases ok with
            | true => simp [step, hu, he, hd, hx]
            | false => simp [step, hu, he, hd, hx]
        | none =>
          cases ok with
          | true => simp [step, hu, he, hd]
          | false => simp [step, hu, he, hd]
      · simp [step, hu, he]
  | head j =>
    cases hu : alLookup s.uploads j with
    | none => simp [step, hu]
    | some u => simp [step, hu]
  | setDeferredLength j L =>
    cases hu : alLookup s.uploads j with
    | none => simp [step, hu]
    | some u =>
      cases hd : u.declaredLength with
      | some len => simp [step, hu, hd]
      | none =>
        by_cases hm : L < 0
        · simp [step, hu, hd, hm]
        · simp [step, hu, hd, hm]
  | terminate j => simp [step]

theorem fresh_step (s : SystemState) (op : Op) (hf : freshInv s) :
    freshInv (step s op).state := by
  cases op with
  | create dl md =>
    have key : ∀ u0 : Upload, freshInv ⟨s.nextId + 1,
        alInsert s.uploads s.nextId u0, alInsert s.storage s.nextId []⟩ := by
      intro u0 id hid
      have hid2 : s.nextId + 1 ≤ id := hid
      rw [alLookup_alInsert, if_neg (by omega)]
      exact hf id (by omega)
    cases dl with
    | none => simpa [step] using key ⟨none, 0, md⟩
    | some l =>
      by_cases hl : l < 0
      · simpa [step, hl] using hf
      · simpa [step, hl] using key ⟨some l.toNat, 0, md⟩
  | append j eo p ok =>
    cases hu : alLookup s.uploads j with
    | none => simpa [step, hu] using hf
    | some u =>
      have hj : j < s.nextId := by
        by_contra hcn
        push_neg at hcn
        rw [hf j hcn] at hu
        exact Option.noConfusion hu
      have key : ∀ (u2 : Upload) (new : List Nat), freshInv ⟨s.nextId,
          alInsert s.uploads j u2, alInsert s.storage j new⟩ := by
        intro u2 new id hid
        have hid2 : s.nextId ≤ id := hid
        rw [alLookup_alInsert, if_neg (by omega)]
        exact hf id hid2
      by_cases he : eo = u.offset
      · cases hd : u.declaredLength with
        | some len =>
          by_cases hx : len < u.offset + p.length
          · simpa [step, hu, he, hd, hx] using hf
          · cases ok with
            | true =>
              simpa [step, hu, he, hd, hx] using
                key ⟨some len, u.offset + p.length, u.metaData⟩
                  ((alLookup s.storage j).getD [] ++ p)
            | false => simpa [step, hu, he, hd, hx] using hf
        | none =>
          cases ok with
          | true =>
            simpa [step, hu, he, hd] using
              key ⟨none, u.offset + p.length, u.metaData⟩
                ((alLookup s.storage j).getD [] ++ p)
          | false => simpa [step, hu, he, hd] using hf
      · simpa [step, hu, he] using hf
  | head j =>
    cases hu : alLookup s.uploads j with
    | none => simpa [step, hu] using hf
    | some u => simpa [step, hu] using hf
  | setDeferredLength j L =>
    cases hu : alLookup s.uploads j with
    | none => simpa [step, hu] using hf
    | some u =>
      have hj : j < s.nextId := by
        by_contra hcn
        push_neg at hcn
        rw [hf j hcn] at hu
        exact Option.noConfusion hu
      cases hd : u.declaredLength with
      | some len => simpa [step, hu, hd] using hf
      | none =>
        by_cases hm : L < 0
        · simpa [step, hu, hd, hm] using hf
        · have key : freshInv ⟨s.nextId,
              alInsert s.uploads j ⟨some L.toNat, u.offset, u.metaData⟩,
              s.storage⟩ := by
            intro id hid
            have hid2 : s.nextId ≤ id := hid
            rw [alLookup_alInsert, if_neg (by omega)]
            exact hf id hid2
          simpa [step, hu, hd, hm] using key
  | terminate j =>
    have key : freshInv ⟨s.nextId, alErase s.uploads j, alErase s.storage j⟩ := by
      intro id hid
      have hid2 : s.nextId ≤ id := hid
      rw [alLookup_alErase]
      by_cases hij : id = j
      · rw [if_pos hij]
      · rw [if_neg hij]
        exact hf id hid2
    simpa [step] using key

theorem dead_step (s : SystemState) (op : Op) (id : Nat) (hf : freshInv s)
    (hlt : id < s.nextId) (hdead : alLookup s.uploads id = none) :
    alLookup (step s op).state.uploads id = none := by
  cases op with
  | create dl md =>
    have key : ∀ u0 : Upload,
        alLookup (alInsert s.uploads s.nextId u0) id = none := by
      intro u0
      rw [alLookup_alInsert, if_neg (by omega)]
      exact hdead
    cases dl with
    | none => simpa [step] using key ⟨none, 0, md⟩
    | some l =>
      by_cases hl : l < 0
      · simpa [step, hl] using hdead
      · simpa [step, hl] using key ⟨some l.toNat, 0, md⟩
  | append j eo p ok =>
    cases hu : alLookup s.uploads j with
    | none => simpa [step, hu] using hdead
    | some u =>
      have hij : ¬ id = j := by
        intro hh
        rw [hh] at hdead
        rw [hdead] at hu
        exact Option.noConfusion hu
      have key : ∀ u2 : Upload, alLookup (alInsert s.uploads j u2) id = none := by
        intro u2
        rw [alLookup_alInsert, if_neg hij]
        exact hdead
      by_cases he : eo = u.offset
      · cases hd : u.declaredLength with
        | some len =>
          by_cases hx : len < u.offset + p.length
          · simpa [step, hu, he, hd, hx] using hdead
          · cases ok with
            | true =>
              simpa [step, hu, he, hd, hx] using
                key ⟨some len, u.offset + p.length, u.metaData⟩
            | false => simpa [step, hu, he, hd, hx] using hdead
        | none =>
          cases ok with
          | true =>
            simpa [step, hu, he, hd] using
              key ⟨none, u.offset + p.length, u.metaData⟩
          | false => simpa [step, hu, he, hd] using hdead
      · simpa [step, hu, he] using hdead
  | head j =>
    cases hu : alLookup s.uploads j with
    | none => simpa [step, hu] using hdead
    | some u => simpa [step, hu] using hdead
  | setDeferredLength j L =>
    cases hu : alLookup s.uploads j with
    | none => simpa [step, hu] using hdead
    | some u =>
      have hij : ¬ id = j := by
        intro hh
        rw [hh] at hdead
        rw [hdead] at hu
        exact Option.noConfusion hu
      cases hd : u.declaredLength with
      | some len => simpa [step, hu, hd] using hdead
      | none =>
        by_cases hm : L < 0
        · simpa [step, hu, hd, hm] using hdead
        · have key : alLookup
              (alInsert s.uploads j ⟨some L.toNat, u.offset, u.metaData⟩) id = none := by
            rw [alLookup_alInsert, if_neg hij]
            exact hdead
          simpa [step, hu, hd, hm] using key
  | terminate j =>
    have key : alLookup (alErase s.uploads j) id = none := by
      rw [alLookup_alErase]
      by_cases hij : id = j
      · rw [if_pos hij]
      · rw [if_neg hij]
        exact hdead
    simpa [step] using key

theorem step_count (s : SystemState) (op : Op) (id : Nat) (hf : freshInv s) :
    countFor id (step s op).events =
      if completeAt s id = false ∧ completeAt (step s op).state id = true
        then 1 else 0 := by
  cases op with
  | create dl md =>
    have hfr : completeIn s.uploads s.nextId = false := by
      simp [completeIn, hf s.nextId (le_refl _)]
    cases dl with
    | none =>
      have hstep : step s (Op.create none md) =
          ⟨⟨s.nextId + 1, alInsert s.uploads s.nextId ⟨none, 0, md⟩,
            alInsert s.storage s.nextId []⟩, .ok (.created s.nextId), []⟩ := by
        simp [step]
      rw [hstep]
      by_cases hi : id = s.nextId
      · subst hi
        simp [countFor, completeAt, completeIn_insert, Upload.isComplete]
      · simp [countFor, completeAt, completeIn_insert, hi]
    | some l =>
      by_cases hl : l < 0
      · have hstep : step s (Op.create (some l) md) =
            ⟨s, .err .InvalidLength, []⟩ := by
          simp [step, hl]
        rw [hstep]
        simp [countFor]
      · have hstep : step s (Op.create (some l) md) =
            ⟨⟨s.nextId + 1, alInsert s.uploads s.nextId ⟨some l.toNat, 0, md⟩,
              alInsert s.storage s.nextId []⟩, .ok (.created s.nextId),
             if l.toNat = 0 then [⟨s.nextId, 0⟩] else []⟩ := by
          simp [step, hl]
        rw [hstep]
        by_cases hz : l.toNat = 0
        · by_cases hi : id = s.nextId
          · subst hi
            simp [hz, countFor_single, completeAt, completeIn_insert,
              Upload.isComplete, hfr]
          · have hi2 : ¬ s.nextId = id := fun hh => hi hh.symm
            simp [hz, countFor_single, hi2, completeAt, completeIn_insert, hi]
        · by_cases hi : id = s.nextId
          · subst hi
            simp [hz, countFor, completeAt, completeIn_insert, Upload.isComplete]
          · simp [hz, countFor, completeAt, completeIn_insert, hi]
  | append j eo p ok =>
    cases hu : alLookup s.uploads j with
    | none =>
      have hstep : step s (Op.append j eo p ok) = ⟨s, .err .NotFound, []⟩ := by
        simp [step, hu]
      rw [hstep]
      simp [countFor]
    | some u =>
      by_cases he : eo = u.offset
      · cases hd : u.declaredLength with
        | some len =>
          by_cases hx : len < u.offset + p.length
          · have hstep : step s (Op.append j eo p ok) =
                ⟨s, .err .LengthExceeded, []⟩ := by
              simp [step, hu, he, hd, hx]
            rw [hstep]
            simp [countFor]
          · cases ok with
            | false =>
              have hstep : step s (Op.append j eo p false) =
                  ⟨s, .err .StorageUnavailable, []⟩ := by
                simp [step, hu, he, hd, hx]
              rw [hstep]
              simp [countFor]
            | true =>
              have hstep : step s (Op.append j eo p true) =
                  ⟨⟨s.nextId,
                    alInsert s.uploads j ⟨some len, u.offset + p.length, u.metaData⟩,
                    alInsert s.storage j ((alLookup s.storage j).getD [] ++ p)⟩,
                   .ok (.appended (u.offset + p.length)),
                   if u.offset < len ∧ u.offset + p.length = len
                     then [⟨j, len⟩] else []⟩ := by
                simp [step, hu, he, hd, hx]
              rw [hstep]
              have hcu : completeIn s.uploads j = u.isComplete := by
                simp [completeIn, hu]
              by_cases hij : id = j
              · subst hij
                by_cases hC : u.offset < len ∧ u.offset + p.length = len
                · have h1 : ¬ len = u.offset := by omega
                  simp [hC, countFor_single, completeAt, completeIn_insert,
                    hcu, Upload.isComplete, hd, h1, hC.2]
                · by_cases ha : u.offset + p.length = len
                  · have hnl : ¬ u.offset < len := fun hlt => hC ⟨hlt, ha⟩
                    have h1 : len = u.offset := by omega
                    simp [hC, countFor, completeAt, completeIn_insert,
                      hcu, Upload.isComplete, hd, h1]
                  · have h2 : ¬ len = u.offset + p.length := fun hh => ha hh.symm
                    simp [hC, countFor, completeAt, completeIn_insert,
                      Upload.isComplete, h2]
              · have hji : ¬ j = id := fun hh => hij hh.symm
                by_cases hC : u.offset < len ∧ u.offset + p.length = len
                · simp [hC, countFor_single, hji, completeAt, completeIn_insert, hij]
                · simp [hC, countFor, completeAt, completeIn_insert, hij]
        | none =>
          cases ok with
          | false =>
            have hstep : step s (Op.append j eo p false) =
                ⟨s, .err .StorageUnavailable, []⟩ := by
              simp [step, hu, he, hd]
            rw [hstep]
            simp [countFor]
          | true =>
            have hstep : step s (Op.append j eo p true) =
                ⟨⟨s.nextId,
                  alInsert s.uploads j ⟨none, u.offset + p.length, u.metaData⟩,
                  alInsert s.storage j ((alLookup s.storage j).getD [] ++ p)⟩,
                 .ok (.appended (u.offset + p.length)), []⟩ := by
              simp [step, hu, he, hd]
            rw [hstep]
            by_cases hij : id = j
            · subst hij
              simp [countFor, completeAt, completeIn_insert, Upload.isComplete]
            · simp [countFor, completeAt, completeIn_insert, hij]
      · have hstep : step s (Op.append j eo p ok) =
            ⟨s, .err .OffsetMismatch, []⟩ := by
          simp [step, hu, he]
        rw [hstep]
        simp [countFor]
  | head j =>
    cases hu : alLookup s.uploads j with
    | none =>
      have hstep : step s (Op.head j) = ⟨s, .err .NotFound, []⟩ := by
        simp [step, hu]
      rw [hstep]
      simp [countFor]
    | some u =>
      have hstep : step s (Op.head j) =
          ⟨s, .ok (.info u.offset u.declaredLength), []⟩ := by
        simp [step, hu]
      rw [hstep]
      simp [countFor]
  | setDeferredLength j L =>
    cases hu : alLookup s.uploads j with
    | none =>
      have hstep : step s (Op.setDeferredLength j L) = ⟨s, .err .NotFound, []⟩ := by
        simp [step, hu]
      rw [hstep]
      simp [countFor]
    | some u =>
      cases hd : u.declaredLength with
      | some len =>
        have hstep : step s (Op.setDeferredLength j L) =
            ⟨s, .err .AlreadySet, []⟩ := by
          simp [step, hu, hd]
        rw [hstep]
        simp [countFor]
      | none =>
        by_cases hm : L < 0
        · have hstep : step s (Op.setDeferredLength j L) =
              ⟨s, .err .InvalidLength, []⟩ := by
            simp [step, hu, hd, hm]
          rw [hstep]
          simp [countFor]
        · have hstep : step s (Op.setDeferredLength j L) =
              ⟨⟨s.nextId,
                alInsert s.uploads j ⟨some L.toNat, u.offset, u.metaData⟩,
                s.storage⟩, .ok .done,
               if u.offset = L.toNat then [⟨j, L.toNat⟩] else []⟩ := by
            simp [step, hu, hd, hm]
          rw [hstep]
          have hcu : completeIn s.uploads j = false := by
            simp [completeIn, hu, Upload.isComplete, hd]
          by_cases hij : id = j
          · subst hij
            by_cases ho : u.offset = L.toNat
            · simp [ho, countFor_single, hcu, completeAt, completeIn_insert,
                Upload.isComplete]
            · have ho2 : ¬ L.toNat = u.offset := fun hh => ho hh.symm
              simp [ho, countFor, completeAt, completeIn_insert,
                Upload.isComplete, ho2]
          · have hji : ¬ j = id := fun hh => hij hh.symm
            by_cases ho : u.offset = L.toNat
            · simp [ho, countFor_single, hji, completeAt, completeIn_insert, hij]
            · simp [ho, countFor, completeAt, completeIn_insert, hij]
  | terminate j =>
    have hstep : step s (Op.terminate j) =
        ⟨⟨s.nextId, alErase s.uploads j, alErase s.storage j⟩, .ok .done, []⟩ := by
      simp [step]
    rw [hstep]
    by_cases hij : id = j
    · simp [countFor, completeAt, completeIn_erase, hij]
    · simp [countFor, completeAt, completeIn_erase, hij]

theorem complete_persist (s : SystemState) (op : Op) (id : Nat) (hf : freshInv s)
    (hc : completeAt s id = true) :
    completeAt (step s op).state id = true ∨
      (alLookup (step s op).state.uploads id = none ∧
        id < (step s op).state.nextId) := by
  have hex : ∃ w, alLookup s.uploads id = some w ∧ w.isComplete = true := by
    cases hl : alLookup s.uploads id with
    | none => rw [completeAt_noneUpload s id hl] at hc; exact absurd hc (by simp)
    | some w =>
      exact ⟨w, rfl, by rw [completeAt_some s id w hl] at hc; exact hc⟩
  obtain ⟨w, hw, hwc⟩ := hex
  have hid : id < s.nextId := by
    by_contra hcn
    push_neg at hcn
    rw [hf id hcn] at hw
    exact Option.noConfusion hw
  have hwdl : w.declaredLength = some w.offset := by
    simpa [Upload.isComplete] using hwc
  cases op with
  | create dl md =>
    left
    have hi : ¬ id = s.nextId := by omega
    cases dl with
    | none =>
      simp [step, completeAt, completeIn_insert, hi]
      simpa [completeAt] using hc
    | some l =>
      by_cases hl2 : l < 0
      · simpa [step, hl2] using hc
      · simp [step, hl2, completeAt, completeIn_insert, hi]
        simpa [completeAt] using hc
  | append j eo p ok =>
    by_cases hij : id = j
    · subst hij
      by_cases he : eo = w.offset
      · by_cases hx : w.offset < w.offset + p.length
        · left
          simpa [step, hw, he, hwdl, hx] using hc
        · have hp : p.length = 0 := by omega
          cases ok with
          | false =>
            left
            simpa [step, hw, he, hwdl, hx] using hc
          | true =>
            left
            simp [step, hw, he, hwdl, hx, completeAt, completeIn_insert,
              Upload.isComplete, hp]
      · left
        simpa [step, hw, he] using hc
    · left
      cases hu : alLookup s.uploads j with
      | none => simpa [step, hu] using hc
      | some u =>
        by_cases he : eo = u.offset
        · cases hd : u.declaredLength with
          | some len =>
            by_cases hx : len < u.offset + p.length
            · simpa [step, hu, he, hd, hx] using hc
            · cases ok with
              | false => simpa [step, hu, he, hd, hx] using hc
              | true =>
                simp [step, hu, he, hd, hx, completeAt, completeIn_insert, hij]
                simpa [completeAt] using hc
          | none =>
            cases ok with
            | false => simpa [step, hu, he, hd] using hc
            | true =>
              simp [step, hu, he, hd, completeAt, completeIn_insert, hij]
              simpa [completeAt] using hc
        · simpa [step, hu, he] using hc
  | head j =>
    left
    cases hu : alLookup s.uploads j with
    | none => simpa [step, hu] using hc
    | some u => simpa [step, hu] using hc
  | setDeferredLength j L =>
    by_cases hij : id = j
    · subst hij
      left
      simpa [step, hw, hwdl] using hc
    · left
      cases hu : alLookup s.uploads j with
      | none => simpa [step, hu] using hc
      | some u =>
        cases hd : u.declaredLength with
        | some len => simpa [step, hu, hd] using hc
        | none =>
          by_cases hm : L < 0
          · simpa [step, hu, hd, hm] using hc
          · simp [step, hu, hd, hm, completeAt, completeIn_insert, hij]
            simpa [completeAt] using hc
  | terminate j =>
    by_cases hij : id = j
    · right
      subst hij
      constructor
      · simp [step, alLookup_alErase]
      · simpa [step] using hid
    · left
      simp [step, completeAt, completeIn_erase, hij]
      simpa [completeAt] using hc

theorem dead_run_count (ops : List Op) : ∀ s id, freshInv s → id < s.nextId →
    alLookup s.uploads id = none → countFor id (runTrace s ops).2 = 0 := by
  induction ops with
  | nil => intro s id _ _ _; rfl
  | cons op rest ih =>
    intro s id hf hlt hdead
    have hafter : alLookup (step s op).state.uploads id = none :=
      dead_step s op id hf hlt hdead
    have hc1 : countFor id (step s op).events = 0 := by
      rw [step_count s op id hf]
      have hcf : completeAt (step s op).state id = false :=
        completeAt_noneUpload (step s op).state id hafter
      simp [hcf]
    have hc2 := ih (step s op).state id (fresh_step s op hf)
      (lt_of_lt_of_le hlt (nextId_mono s op)) hafter
    simp only [runTrace]
    rw [countFor_append, hc1, hc2]

theorem complete_run_count (ops : List Op) : ∀ s id, freshInv s →
    completeAt s id = true → countFor id (runTrace s ops).2 = 0 := by
  induction ops with
  | nil => intro s id _ _; rfl
  | cons op rest ih =>
    intro s id hf hc
    have hc1 : countFor id (step s op).events = 0 := by
      rw [step_count s op id hf]
      simp [hc]
    have hrest : countFor id (runTrace (step s op).state rest).2 = 0 := by
      rcases complete_persist s op id hf hc with hcp | ⟨hdead, hlt⟩
      · exact ih (step s op).state id (fresh_step s op hf) hcp
      · exact dead_run_count rest (step s op).state id (fresh_step s op hf)
          hlt hdead
    simp only [runTrace]
    rw [countFor_append, hc1, hrest]

theorem run_count_eq (ops : List Op) : ∀ s id, freshInv s →
    completeAt s id = false →
    countFor id (runTrace s ops).2 =
      (if (statesAlong s ops).any (fun t => completeAt t id) then 1 else 0) := by
  induction ops with
  | nil => intro s id _ _; simp [runTrace, statesAlong, countFor]
  | cons op rest ih =>
    intro s id hf hc
    simp only [runTrace, statesAlong]
    rw [countFor_append]
    cases hca : completeAt (step s op).state id with
    | false =>
      have hc1 : countFor id (step s op).events = 0 := by
        rw [step_count s op id hf]
        simp [hca]
      rw [hc1, ih (step s op).state id (fresh_step s op hf) hca]
      simp [List.any_cons, hca]
    | true =>
      have hc1 : countFor id (step s op).events = 1 := by
        rw [step_count s op id hf]
        simp [hc, hca]
      rw [hc1, complete_run_count rest (step s op).state id (fresh_step s op hf) hca]
      simp [List.any_cons, hca]

theorem emit_content (s : SystemState) (op : Op) (ev : CompletionEvent)
    (hev : ev ∈ (step s op).events) :
    ∃ u, alLookup (step s op).state.uploads ev.id = some u ∧
      u.declaredLength = some ev.finalLength ∧ u.offset = ev.finalLength := by
  cases op with
  | create dl md =>
    cases dl with
    | none => simp [step] at hev
    | some l =>
      by_cases hl : l < 0
      · simp [step, hl] at hev
      · by_cases hz : l.toNat = 0
        · simp [step, hl, hz] at hev
          subst hev
          refine ⟨⟨some l.toNat, 0, md⟩, ?_, ?_, rfl⟩
          · simp [step, hl, alLookup_alInsert]
          · simp [hz]
        · simp [step, hl, hz] at hev
  | append j eo p ok =>
    cases hu : alLookup s.uploads j with
    | none => simp [step, hu] at hev
    | some u =>
      by_cases he : eo = u.offset
      · cases hd : u.declaredLength with
        | some len =>
          by_cases hx : len < u.offset + p.length
          · simp [step, hu, he, hd, hx] at hev
          · cases ok with
            | false => simp [step, hu, he, hd, hx] at hev
            | true =>
              by_cases hC : u.offset < len ∧ u.offset + p.length = len
              · simp [step, hu, he, hd, hx, hC] at hev
                subst hev
                refine ⟨⟨some len, u.offset + p.length, u.metaData⟩, ?_, rfl, ?_⟩
                · simp [step, hu, he, hd, hx, alLookup_alInsert]
                · exact hC.2
              · simp [step, hu, he, hd, hx, hC] at hev
        | none =>
          cases ok with
          | false => simp [step, hu, he, hd] at hev
          | true => simp [step, hu, he, hd] at hev
      · simp [step, hu, he] at hev
  | head j =>
    cases hu : alLookup s.uploads j with
    | none => simp [step, hu] at hev
    | some u => simp [step, hu] at hev
  | setDeferredLength j L =>
    cases hu : alLookup s.uploads j with
    | none => simp [step, hu] at hev
    | some u =>
      cases hd : u.declaredLength with
      | some len => simp [step, hu, hd] at hev
      | none =>
        by_cases hm : L < 0
        · simp [step, hu, hd, hm] at hev
        · by_cases ho : u.offset = L.toNat
          · simp [step, hu, hd, hm, ho] at hev
            subst hev
            refine ⟨⟨some L.toNat, u.offset, u.metaData⟩, ?_, rfl, ?_⟩
            · simp [step, hu, hd, hm, alLookup_alInsert]
            · exact ho
          · simp [step, hu, hd, hm, ho] at hev
  | terminate j => simp [step] at hev

/-- C7: completion notifications are exact: over any trace of operations
from the initial state, the number of completion events carrying an id is
one when some state along the trace has that upload complete and zero
when no state along the trace ever has it complete; and every emitted
event carries the id and the final length of an upload whose offset has
just reached its declared length. -/
theorem C7_completion_event_exactly_once :
    (∀ ops id, countFor id (runTrace initState ops).2 =
      (if (statesAlong initState ops).any (fun t => completeAt t id)
        then 1 else 0)) ∧
    (∀ s op ev, ev ∈ (step s op).events →
      ∃ u, alLookup (step s op).state.uploads ev.id = some u ∧
        u.declaredLength = some ev.finalLength ∧ u.offset = ev.finalLength) := by
  constructor
  · intro ops id
    exact run_count_eq ops initState id (fun i _ => rfl) rfl
  · exact emit_content

/-- C7 witness: a trace that creates an upload of length 2 and appends
both bytes produces exactly one completion event for its id, and the
event emitted by the completing append carries final length 2. -/
theorem C7_completion_witness :
    countFor 0 (runTrace initState
      [Op.create (some 2) [], Op.append 0 0 [7, 7] true]).2 = 1 ∧
    (∃ u, alLookup (step (step initState (Op.create (some 2) [])).state
        (Op.append 0 0 [7, 7] true)).state.uploads 0 = some u ∧
      u.declaredLength = some 2 ∧ u.offset = 2) := by
  constructor
  · rw [C7_completion_event_exactly_once.1
      [Op.create (some 2) [], Op.append 0 0 [7, 7] true] 0]
    decide
  · exact C7_completion_event_exactly_once.2
      (step initState (Op.create (some 2) [])).state
      (Op.append 0 0 [7, 7] true) ⟨0, 2⟩ (by decide)

theorem dead_run (ops : List Op) : ∀ s id, freshInv s → id < s.nextId →
    alLookup s.uploads id = none →
    alLookup (runTrace s ops).1.uploads id = none := by
  induction ops with
  | nil => intro s id _ _ h; exact h
  | cons op rest ih =>
    intro s id hf hlt hdead
    simp only [runTrace]
    exact ih (step s op).state id (fresh_step s op hf)
      (lt_of_lt_of_le hlt (nextId_mono s op)) (dead_step s op id hf hlt hdead)

/-- C8: Terminate deletes both the metadata record and the storage object
for the id; it succeeds, repeating it changes nothing and is again
failure-free; and once an existing upload has been terminated, every
later Append, Head or SetDeferredLength on that id, after any further
trace of operations, is rejected with NotFound. -/
theorem C8_terminate_deletes_and_notfound (s : SystemState) (id : Nat)
    (hf : freshInv s) :
    alLookup (step s (Op.terminate id)).state.uploads id = none ∧
    alLookup (step s (Op.terminate id)).state.storage id = none ∧
    (step s (Op.terminate id)).result = .ok .done ∧
    step (step s (Op.terminate id)).state (Op.terminate id) =
      ⟨(step s (Op.terminate id)).state, .ok .done, []⟩ ∧
    (∀ u, alLookup s.uploads id = some u → ∀ ops : List Op,
      ((step (runTrace (step s (Op.terminate id)).state ops).1
          (Op.head id)).result = .err .NotFound) ∧
      (∀ eo p ok, (step (runTrace (step s (Op.terminate id)).state ops).1
          (Op.append id eo p ok)).result = .err .NotFound) ∧
      (∀ L, (step (runTrace (step s (Op.terminate id)).state ops).1
          (Op.setDeferredLength id L)).result = .err .NotFound)) := by
  have h1 : alLookup (step s (Op.terminate id)).state.uploads id = none := by
    simp [step, alLookup_alErase]
  refine ⟨h1, ?_, rfl, ?_, ?_⟩
  · simp [step, alLookup_alErase]
  · simp [step, alErase_alErase]
  · intro u hu ops
    have hlt : id < s.nextId := by
      by_contra hcn
      push_neg at hcn
      rw [hf id hcn] at hu
      exact Option.noConfusion hu
    have hlt2 : id < (step s (Op.terminate id)).state.nextId := by
      simpa [step] using hlt
    have hrun : alLookup
        (runTrace (step s (Op.terminate id)).state ops).1.uploads id = none :=
      dead_run ops (step s (Op.terminate id)).state id
        (fresh_step s (Op.terminate id) hf) hlt2 h1
    have hrun2 : alLookup (runTrace
        ⟨s.nextId, alErase s.uploads id, alErase s.storage id⟩ ops).1.uploads id =
        none := by
      simpa [step] using hrun
    refine ⟨by simp [step, hrun2], fun eo p ok => by simp [step, hrun2],
      fun L => by simp [step, hrun2]⟩

/-- C8 witness: after creating upload 0 and terminating it, its metadata
record is gone, and a head request for id 0 after a further create of a
different upload is rejected with NotFound. -/
theorem C8_terminate_witness :
    alLookup (step (step initState (Op.create (some 5) [])).state
      (Op.terminate 0)).state.uploads 0 = none ∧
    (step (runTrace (step (step initState (Op.create (some 5) [])).state
        (Op.terminate 0)).state [Op.create (some 4) []]).1
      (Op.head 0)).result = .err .NotFound := by
  have hf : freshInv (step initState (Op.create (some 5) [])).state := by
    have h1 : (step initState (Op.create (some 5) [])).state =
        ⟨1, [(0, ⟨some 5, 0, []⟩)], [(0, [])]⟩ := by decide
    rw [h1]
    intro i hi
    have hi2 : 1 ≤ i := hi
    simp only [alLookup]
    rw [if_neg (by omega)]
  have h := C8_terminate_deletes_and_notfound
    (step initState (Op.create (some 5) [])).state 0 hf
  exact ⟨h.1, (h.2.2.2.2 ⟨some 5, 0, []⟩ (by decide) [Op.create (some 4) []]).1⟩

end Tus
